import Mathlib

/-!
Verification of the `Channel` storage core of
`building_blocks_storage/src/array/channel.rs`.

A `Channel<T, Store = Vec<T>>` owns a contiguous buffer of elements.  We
shallowly embed the `Vec<T>` store as a `List T`.  Debug-mode (checked)
indexed access, which panics on an out-of-range offset, is embedded as an
`Option`-returning lookup where `none` models the `IndexOutOfBounds`
panic.  The `MaybeUninit<T>` slot of the uninitialized fast path is
embedded as `Option T`, with `none` standing for an unwritten slot.
-/

namespace BuildingBlocks

/-- Embeds `struct Channel<T, Store = Vec<T>> { store: Store, marker: PhantomData<T> }`
with the default `Vec<T>` store as a list.  The zero-sized `PhantomData`
marker carries no data and is omitted. -/
structure Channel (T : Type) where
  store : List T
  deriving Repr, DecidableEq

namespace Channel

variable {T : Type}

/-- Embeds `Channel::new(store)`: wraps an existing store unconditionally. -/
def new (store : List T) : Channel T :=
  ⟨store⟩

/-- Embeds `Channel::take_store(self)`: consumes the channel and returns the store. -/
def take_store (c : Channel T) : List T :=
  c.store

/-- Embeds `Channel::fill(value, length)`, i.e. `Self::new(vec![value; length])`. -/
def fill (value : T) (length : Nat) : Channel T :=
  new (List.replicate length value)

/-- Embeds `Channel::reset_values(&mut self, value)`, i.e. `self.store.fill(value)`:
every element of the existing store is overwritten with `value`.  The
mutation is embedded as returning the updated channel. -/
def reset_values (c : Channel T) (value : T) : Channel T :=
  ⟨c.store.map fun _ => value⟩

/-- Embeds the debug-mode (`cfg!(debug_assertions)`) branch of
`GetRef::get_ref`, `&self.store[offset]`: the checked index.  `none`
models the `IndexOutOfBounds` panic on an out-of-range offset. -/
def get_ref (c : Channel T) (offset : Nat) : Option T :=
  c.store[offset]?

/-- Embeds the debug-mode branch of `GetMut::get_mut`,
`&mut self.store[offset]`: the checked lookup of the mutable slot.
`none` models the `IndexOutOfBounds` panic. -/
def get_mut (c : Channel T) (offset : Nat) : Option T :=
  c.store[offset]?

/-- Writing `value` through the mutable reference obtained from
`get_mut(offset)` (`*self.get_mut(offset) = value`); the write only
happens when `get_mut` did not panic. -/
def write_via_get_mut (c : Channel T) (offset : Nat) (value : T) : Option (Channel T) :=
  (c.get_mut offset).map fun _ => ⟨c.store.set offset value⟩

/-- Embeds `clone` of the element, which for the values in this pure model
is the identity duplication. -/
def clone (x : T) : T :=
  x

/-- Modelled from the spec: the generic `impl_get_via_get_ref_and_clone!`
macro (declared outside this file's source) derives point-read-by-value as
"point-read, then duplicate": `fn get(&self, offset) { self.get_ref(offset).clone() }`. -/
def get (c : Channel T) (offset : Nat) : Option T :=
  (c.get_ref offset).map clone

/-- Embeds `Channel::<MaybeUninit<T>>::maybe_uninit(size)`: reserves `size`
slots none of which holds a value yet (`none` = uninitialized slot). -/
def maybe_uninit (size : Nat) : Channel (Option T) :=
  new (List.replicate size none)

/-- Embeds `Channel::assume_init(self)`: reinterprets every
`MaybeUninit<T>` slot as a `T` in place (same length, no copy).  An
unwritten slot holds garbage in the source (undefined behavior); the
embedding reads it as an arbitrary default. -/
def assume_init [Inhabited T] (c : Channel (Option T)) : Channel T :=
  new (c.store.map fun o => o.getD default)

/-- Writing one value into one slot of an uninitialized channel. -/
def write_slot (c : Channel (Option T)) (offset : Nat) (value : T) : Channel (Option T) :=
  ⟨c.store.set offset (some value)⟩

/-- Writing the values `vs` into the consecutive slots starting at
`offset`: the "write every slot exactly once" pass of the fast path. -/
def write_slots (c : Channel (Option T)) (offset : Nat) (vs : List T) : Channel (Option T) :=
  match vs with
  | [] => c
  | v :: rest => write_slots (write_slot c offset v) (offset + 1) rest

end Channel

/-!
The `Channels` composition trait.  The single-channel impl delegates to
`Channel::fill` / `Channel::reset_values`.  The tuple impls are generated
by `impl_channels_for_tuple!`; we embed the arity-1 and arity-2 instances
(the macro body destructures the value tuple and dispatches per member).
-/

/-- Embeds `impl Channels for Channel<T>`: `fill` delegates to the inherent
`Channel::fill`. -/
def Channels.fill1 {T : Type} (value : T) (length : Nat) : Channel T :=
  Channel.fill value length

/-- Embeds `impl Channels for Channel<T>`: `reset_values` delegates to the
inherent `Channel::reset_values`. -/
def Channels.reset_values1 {T : Type} (c : Channel T) (value : T) : Channel T :=
  c.reset_values value

/-- A one-element tuple `(A,)`, the arity-1 instantiation of the macro. -/
structure Tuple1 (A : Type) where
  fst : A
  deriving Repr, DecidableEq

/-- Embeds the arity-1 expansion of `impl_channels_for_tuple! { a1, a2: A }`:
`fn fill(value: (A::Data,), length) { let (a1,) = value; (A::fill(a1, length),) }`
at `A = Channel T`. -/
def Channels.fillT1 {T : Type} (value : Tuple1 T) (length : Nat) : Tuple1 (Channel T) :=
  match value with
  | ⟨a1⟩ => ⟨Channels.fill1 a1 length⟩

/-- Embeds the arity-1 expansion of `reset_values` from
`impl_channels_for_tuple! { a1, a2: A }` at `A = Channel T`. -/
def Channels.reset_valuesT1 {T : Type} (self : Tuple1 (Channel T)) (value : Tuple1 T) :
    Tuple1 (Channel T) :=
  match self, value with
  | ⟨a1⟩, ⟨a2⟩ => ⟨Channels.reset_values1 a1 a2⟩

/-- Embeds the arity-2 expansion of
`impl_channels_for_tuple! { a1, a2: A, b1, b2: B }`:
`let (a1, b1) = value; (A::fill(a1, length), B::fill(b1, length))`
at `A = Channel T₁`, `B = Channel T₂`. -/
def Channels.fillT2 {T₁ T₂ : Type} (value : T₁ × T₂) (length : Nat) :
    Channel T₁ × Channel T₂ :=
  match value with
  | (a1, b1) => (Channels.fill1 a1 length, Channels.fill1 b1 length)

/-- Embeds the arity-2 expansion of `reset_values`:
`let (a1, b1) = self; let (a2, b2) = value; a1.reset_values(a2); b1.reset_values(b2)`. -/
def Channels.reset_valuesT2 {T₁ T₂ : Type} (self : Channel T₁ × Channel T₂)
    (value : T₁ × T₂) : Channel T₁ × Channel T₂ :=
  match self, value with
  | (a1, b1), (a2, b2) => (Channels.reset_values1 a1 a2, Channels.reset_values1 b1 b2)

/-- Modelled from the spec: the composite point-read of a tuple of
channels (its `GetRef` impl lives outside this file's source): a tuple of
co-indexed channels is "driven by one shared index", reading each member
at the shared offset. -/
def Channels.get_refT2 {T₁ T₂ : Type} (self : Channel T₁ × Channel T₂) (offset : Nat) :
    Option T₁ × Option T₂ :=
  (self.1.get_ref offset, self.2.get_ref offset)

/-!
Structural serialization.  `Channel` derives `Serialize` / `Deserialize`;
the derived encoder is structural: a struct node with the `store` field (a
sequence of elements) and the zero-sized `marker` field (a unit).
-/

/-- Modelled from the spec: the generic structured representation that
`Channel`'s derived `Serialize` targets — a value tree over element
type `T` (a sequence of elements, a unit, or a named struct of fields). -/
inductive SerdeValue (T : Type) where
  | seq : List T → SerdeValue T
  | unitValue : SerdeValue T
  | strct : String → List (String × SerdeValue T) → SerdeValue T

/-- Modelled from the spec: the derived structural encoder of `Channel`,
emitting its `store` field as a sequence and its `marker` field as a unit. -/
def Channel.encode {T : Type} (c : Channel T) : SerdeValue T :=
  .strct "Channel" [("store", .seq c.store), ("marker", .unitValue)]

/-- Modelled from the spec: the derived structural decoder of `Channel`,
accepting exactly the shape `encode` emits and rebuilding the channel. -/
def Channel.decode {T : Type} (v : SerdeValue T) : Option (Channel T) :=
  match v with
  | .strct "Channel" [("store", .seq s), ("marker", .unitValue)] => some (Channel.new s)
  | _ => none

/-- Modelled from the spec: the structural encoding of a tuple of two
channels encodes each member in order. -/
def Channel.encodePair {T₁ T₂ : Type} (p : Channel T₁ × Channel T₂) :
    SerdeValue T₁ × SerdeValue T₂ :=
  (p.1.encode, p.2.encode)

/-- Modelled from the spec: the structural decoding of a tuple of two
channels decodes each member in order, failing if either member fails. -/
def Channel.decodePair {T₁ T₂ : Type} (v : SerdeValue T₁ × SerdeValue T₂) :
    Option (Channel T₁ × Channel T₂) :=
  match Channel.decode v.1, Channel.decode v.2 with
  | some c1, some c2 => some (c1, c2)
  | _, _ => none

/-!
Theorems for the claimed properties.
-/

/-- Setting the element just past a front segment `p` replaces the head of
the remainder. -/
lemma set_at_append_length {α : Type} (p : List α) (u : α) (us : List α) (v : α) :
    (p ++ u :: us).set p.length v = p ++ v :: us := by
  induction p with
  | nil => rfl
  | cons a t ih => simp [List.set, ih]

/-- Writing the values `vs` into the consecutive uninitialized slots after
an already-written front segment `p` leaves `p` intact, fills the next
`vs.length` slots with `some`, and leaves the tail slots as they were. -/
lemma write_slots_store {T : Type} (vs : List T) :
    ∀ (p us : List (Option T)), vs.length ≤ us.length →
      (Channel.write_slots (Channel.new (p ++ us)) p.length vs).store
        = p ++ vs.map some ++ us.drop vs.length := by
  induction vs with
  | nil =>
    intro p us _
    simp [Channel.write_slots, Channel.new]
  | cons v rest ih =>
    intro p us h
    cases us with
    | nil => simp at h
    | cons u us' =>
      have hstep : Channel.write_slot (Channel.new (p ++ u :: us')) p.length v
          = Channel.new ((p ++ [some v]) ++ us') := by
        simp [Channel.write_slot, Channel.new, set_at_append_length]
      have hlen : p.length + 1 = (p ++ [some v]).length := by simp
      rw [Channel.write_slots, hstep, hlen,
        ih (p ++ [some v]) us' (by simpa using Nat.le_of_succ_le_succ h)]
      simp

/-- C1: for every value `v` and length `n`, `Channel::fill(v, n)` produces a
channel whose store has length `n` and whose point-read at every offset
`i < n` returns `v`. -/
theorem fill_spec {T : Type} (v : T) (n : Nat) :
    (Channel.fill v n).store.length = n ∧
    ∀ i, i < n → (Channel.fill v n).get_ref i = some v := by
  constructor
  · simp [Channel.fill, Channel.new]
  · intro i hi
    simp [Channel.fill, Channel.new, Channel.get_ref, List.getElem?_replicate, hi]

/-- Witness for C1: `fill 7 3` has length `3` and reads `7` at offset `2`. -/
theorem fill_spec_witness :
    (Channel.fill (7 : Nat) 3).store.length = 3 ∧
    (Channel.fill (7 : Nat) 3).get_ref 2 = some 7 :=
  ⟨(fill_spec 7 3).1, (fill_spec 7 3).2 2 (by decide)⟩

/-- C2: tuple `fill((v1, v2), n)` equals the pair of member fills, tuple
`reset_values` resets each member independently with its own sub-value,
and composite point-read at any offset equals the pair of member
point-reads. -/
theorem tuple_composition_spec {T₁ T₂ : Type} (c1 : Channel T₁) (c2 : Channel T₂)
    (v1 : T₁) (v2 : T₂) (n i : Nat) :
    Channels.fillT2 (v1, v2) n = (Channel.fill v1 n, Channel.fill v2 n) ∧
    Channels.reset_valuesT2 (c1, c2) (v1, v2) = (c1.reset_values v1, c2.reset_values v2) ∧
    Channels.get_refT2 (c1, c2) i = (c1.get_ref i, c2.get_ref i) :=
  ⟨rfl, rfl, rfl⟩

/-- C3: in debug (checked) mode, point-read and point-read-mutable signal
`IndexOutOfBounds` (modelled as `none`) exactly when the offset is at or
past the store's length, and for every in-range offset they return the
element at that offset. -/
theorem bounds_check_spec {T : Type} (c : Channel T) (offset : Nat) :
    (c.get_ref offset = none ↔ c.store.length ≤ offset) ∧
    (c.get_mut offset = none ↔ c.store.length ≤ offset) ∧
    (∀ h : offset < c.store.length,
      c.get_ref offset = some (c.store.get ⟨offset, h⟩) ∧
      c.get_mut offset = some (c.store.get ⟨offset, h⟩)) := by
  refine ⟨?_, ?_, ?_⟩
  · simp [Channel.get_ref, List.getElem?_eq_none_iff]
  · simp [Channel.get_mut, List.getElem?_eq_none_iff]
  · intro h
    constructor <;> simp [Channel.get_ref, Channel.get_mut, List.getElem?_eq_getElem h]

/-- Witness for C3: in-range read returns the element; out-of-range read
signals. -/
theorem bounds_check_spec_witness :
    (Channel.new [10, 20, (30 : Nat)]).get_ref 1 = some 20 ∧
    (Channel.new [10, 20, (30 : Nat)]).get_ref 7 = none := by
  constructor
  · have h := ((bounds_check_spec (Channel.new [10, 20, (30 : Nat)]) 1).2.2 (by decide)).1
    simpa using h
  · exact (bounds_check_spec (Channel.new [10, 20, (30 : Nat)]) 7).1.mpr (by decide)

/-- C4: reserving `n` uninitialized slots, writing a valid value into
every one of them, then finalizing, yields the same channel as explicit
construction from those values — indistinguishable by point-read at every
offset — and, when all the values are equal, the same channel as `fill`. -/
theorem maybe_uninit_roundtrip_spec {T : Type} [Inhabited T] (vs : List T) :
    ((Channel.write_slots (Channel.maybe_uninit vs.length) 0 vs).assume_init
        = Channel.new vs ∧
      ∀ i, (Channel.write_slots (Channel.maybe_uninit vs.length) 0 vs).assume_init.get_ref i
        = (Channel.new vs).get_ref i) ∧
    ∀ (v : T) (n : Nat),
      (Channel.write_slots (Channel.maybe_uninit n) 0 (List.replicate n v)).assume_init
        = Channel.fill v n := by
  have key : ∀ (ws : List T),
      (Channel.write_slots (Channel.maybe_uninit ws.length) 0 ws).assume_init
        = Channel.new ws := by
    intro ws
    have h := write_slots_store ws [] (List.replicate ws.length (none : Option T))
      (by simp)
    have h2 : (Channel.write_slots (Channel.maybe_uninit ws.length) 0 ws).store
        = ws.map some := by
      simpa [Channel.maybe_uninit] using h
    simp [Channel.assume_init, h2, Channel.new, List.map_map, Function.comp_def]
  refine ⟨⟨key vs, fun i => by rw [key vs]⟩, fun v n => ?_⟩
  have := key (List.replicate n v)
  simpa [Channel.fill, Channel.new] using this

/-- C5: after `reset_values(v)` every in-range offset reads `v` and the
length is unchanged; and neither `reset_values` nor a write through
point-read-mutable ever changes the store's length. -/
theorem reset_values_spec {T : Type} (c : Channel T) (v : T) :
    ((c.reset_values v).store.length = c.store.length ∧
      ∀ i, i < (c.reset_values v).store.length → (c.reset_values v).get_ref i = some v) ∧
    ∀ i w c', c.write_via_get_mut i w = some c' → c'.store.length = c.store.length := by
  refine ⟨⟨?_, ?_⟩, ?_⟩
  · simp [Channel.reset_values]
  · intro i hi
    simp only [Channel.reset_values] at hi ⊢
    simp only [List.length_map] at hi
    simp [Channel.get_ref, List.getElem?_replicate, hi]
  · intro i w c' hw
    simp only [Channel.write_via_get_mut, Channel.get_mut, Option.map_eq_some'] at hw
    obtain ⟨_, _, hc'⟩ := hw
    simp [← hc']

/-- Witness for C5: resetting `[1, 2, 3]` to `9` reads `9` at offset `0`,
keeps length `3`, and a write keeps the length. -/
theorem reset_values_spec_witness :
    ((Channel.new [1, 2, (3 : Nat)]).reset_values 9).get_ref 0 = some 9 ∧
    ((Channel.new [1, 2, (3 : Nat)]).reset_values 9).store.length = 3 := by
  have h := reset_values_spec (Channel.new [1, 2, (3 : Nat)]) 9
  exact ⟨h.1.2 0 (by simp [h.1.1]; decide), by simpa using h.1.1⟩

/-- C6: for every in-range offset `i`, writing through point-read-mutable
at `i` then point-reading at `i` yields the written value, and every other
offset is unchanged. -/
theorem write_read_spec {T : Type} (c : Channel T) (i : Nat) (v : T)
    (h : i < c.store.length) :
    ∃ c', c.write_via_get_mut i v = some c' ∧
      c'.get_ref i = some v ∧
      ∀ j, j ≠ i → c'.get_ref j = c.get_ref j := by
  refine ⟨⟨c.store.set i v⟩, ?_, ?_, ?_⟩
  · simp [Channel.write_via_get_mut, Channel.get_mut, List.getElem?_eq_getElem h]
  · simp [Channel.get_ref, List.getElem?_set_self, h]
  · intro j hj
    simp [Channel.get_ref, List.getElem?_set_ne (fun he => hj he.symm)]

/-- Witness for C6: writing `5` at offset `1` of `[1, 2, 3]` then reading
offset `1` yields `5`, other offsets unchanged. -/
theorem write_read_spec_witness :
    ∃ c', (Channel.new [1, 2, (3 : Nat)]).write_via_get_mut 1 5 = some c' ∧
      c'.get_ref 1 = some 5 ∧
      ∀ j, j ≠ 1 → c'.get_ref j = (Channel.new [1, 2, (3 : Nat)]).get_ref j :=
  write_read_spec (Channel.new [1, 2, (3 : Nat)]) 1 5 (by decide)

/-- C7: `take_store` followed by re-wrapping via `new` reproduces the
original channel, and `new` wraps any store without modifying it. -/
theorem take_store_new_spec {T : Type} (c : Channel T) :
    Channel.new c.take_store = c ∧ ∀ s : List T, (Channel.new s).store = s :=
  ⟨rfl, fun _ => rfl⟩

/-- C8: decoding the structural encoding of a channel, and of a tuple of
two channels, reproduces an equal value. -/
theorem encode_decode_spec {T₁ T₂ : Type} (c : Channel T₁) (p : Channel T₁ × Channel T₂) :
    Channel.decode c.encode = some c ∧
    Channel.decodePair (Channel.encodePair p) = some p := by
  obtain ⟨c1, c2⟩ := p
  exact ⟨rfl, rfl⟩

/-- C9: the derived point-read-by-value at any offset is exactly
"point-read, then duplicate", so at every in-range offset it returns the
clone of the stored element. -/
theorem get_via_clone_spec {T : Type} (c : Channel T) (i : Nat) :
    c.get i = (c.get_ref i).map Channel.clone ∧
    ∀ h : i < c.store.length, c.get i = some (Channel.clone (c.store.get ⟨i, h⟩)) := by
  refine ⟨rfl, fun h => ?_⟩
  simp [Channel.get, Channel.get_ref, Channel.clone, List.getElem?_eq_getElem h]

/-- Witness for C9: point-read-by-value at offset `1` of `[4, 5, 6]`
returns the clone of the element `5`. -/
theorem get_via_clone_spec_witness :
    (Channel.new [4, 5, (6 : Nat)]).get 1 = some (Channel.clone 5) :=
  (get_via_clone_spec (Channel.new [4, 5, (6 : Nat)]) 1).2 (by decide)

/-- C10: the `Channels` trait is also generated for the arity-1 tuple:
its `fill` wraps the lone member's fill and its `reset_values` resets the
lone member directly. -/
theorem tuple1_channels_spec {T : Type} (c : Channel T) (v : T) (n : Nat) :
    Channels.fillT1 ⟨v⟩ n = ⟨Channel.fill v n⟩ ∧
    Channels.reset_valuesT1 ⟨c⟩ ⟨v⟩ = ⟨c.reset_values v⟩ :=
  ⟨rfl, rfl⟩

end BuildingBlocks
